import Mathlib

set_option autoImplicit false

namespace WeatherPi

/-! Shallow embedding of the WeatherPi enhanced proxy server
(`src/server/app_enhanced.py`): circuit breaker, LRU memory cache,
sliding-window rate limiter, upstream retry loop, request deduplication,
and the request-tracking pipeline.  Time is modelled as a natural number
of seconds; payloads are opaque `Nat` values. -/

/-! ## Circuit breaker (`CircuitBreaker`, lines 215–261; reset endpoint lines 698–708) -/

/-- The three circuit states, as the `state` string field of
`CircuitBreakerState` in the source. -/
inductive CircState where
  | CLOSED
  | OPEN
  | HALF_OPEN
  deriving DecidableEq, Repr

/-- Configuration: `CIRCUIT_FAILURE_THRESHOLD`, `CIRCUIT_RECOVERY_TIMEOUT`,
`CIRCUIT_HALF_OPEN_MAX_CALLS`. -/
structure CBConfig where
  failureThreshold : Nat
  recoveryTimeout : Nat
  halfOpenMaxCalls : Nat
  deriving DecidableEq, Repr

/-- The `CircuitBreakerState` dataclass: `failures`, `last_failure`,
`state`, `half_open_calls`. -/
structure CBState where
  failures : Nat
  lastFailure : Nat
  state : CircState
  halfOpenCalls : Nat
  deriving DecidableEq, Repr

/-- The dataclass defaults: `failures=0, last_failure=0, state='CLOSED',
half_open_calls=0`. -/
def CBState.init : CBState := ⟨0, 0, .CLOSED, 0⟩

/-- The `HALF_OPEN` branch of the admission block (lines 232–237): when
`half_open_calls ≥ CIRCUIT_HALF_OPEN_MAX_CALLS` the state goes back to
`OPEN` and the call is rejected; otherwise the probe is counted and the
call admitted.  The second component tells whether the wrapped function
is invoked. -/
def CircuitBreaker.halfOpenGate (cfg : CBConfig) (s : CBState) : CBState × Bool :=
  if cfg.halfOpenMaxCalls ≤ s.halfOpenCalls then
    ({ s with state := .OPEN }, false)
  else
    ({ s with halfOpenCalls := s.halfOpenCalls + 1 }, true)

/-- Admission from each state: in `OPEN` the breaker either rejects or,
when `now - last_failure > recovery_timeout`, moves to `HALF_OPEN` with
the probe counter reset and falls through to the half-open gate (lines
224–231); a state already `HALF_OPEN` goes through the gate directly;
`CLOSED` always admits. -/
def CircuitBreaker.callBegin (cfg : CBConfig) (now : Nat) (s : CBState) : CBState × Bool :=
  if s.state = .OPEN then
    if cfg.recoveryTimeout < now - s.lastFailure then
      CircuitBreaker.halfOpenGate cfg { s with state := .HALF_OPEN, halfOpenCalls := 0 }
    else
      (s, false)
  else if s.state = .HALF_OPEN then
    CircuitBreaker.halfOpenGate cfg s
  else
    (s, true)

/-- Second half of `CircuitBreaker.call` (the accounting after the wrapped
function returned or raised, lines 239–261): on success, `HALF_OPEN`
recovers to `CLOSED` with `failures := 0`, and `CLOSED` decrements
`failures` toward zero (`max(0, failures - 1)` is `Nat` subtraction); on
failure, `failures` is incremented, `last_failure` is stamped, and the
state opens when `failures ≥ failure_threshold`. -/
def CircuitBreaker.callEnd (cfg : CBConfig) (success : Bool) (now : Nat) (s : CBState) : CBState :=
  if success then
    if s.state = .HALF_OPEN then { s with state := .CLOSED, failures := 0 }
    else if s.state = .CLOSED then { s with failures := s.failures - 1 }
    else s
  else
    let s1 := { s with failures := s.failures + 1, lastFailure := now }
    if cfg.failureThreshold ≤ s1.failures then { s1 with state := .OPEN } else s1

/-- A whole logical `CircuitBreaker.call` executed without interleaving:
admission, then (if admitted) one invocation of the wrapped function with
the given outcome (`some d` = returned data, `none` = raised).  Returns the
final breaker state, `some outcome` when the function was invoked (`none`
when rejected with the circuit-open exception), and the number of
invocations of the wrapped function. -/
def CircuitBreaker.call (cfg : CBConfig) (now : Nat) (outcome : Option Nat) (s : CBState) :
    CBState × Option (Option Nat) × Nat :=
  let p := CircuitBreaker.callBegin cfg now s
  if p.2 then
    (CircuitBreaker.callEnd cfg outcome.isSome now p.1, some outcome, 1)
  else
    (p.1, none, 0)

/-- The `/api/circuit-breaker/reset` handler (lines 698–708): replaces the
breaker state with a fresh `CircuitBreakerState()`, i.e. forces `CLOSED`. -/
def CircuitBreaker.reset (_s : CBState) : CBState := CBState.init

/-- States reachable from the initial breaker state through admission
steps, completion steps (the wrapped call runs outside the lock, so other
operations may interleave between a call's begin and its end), and the
reset endpoint. -/
inductive CBReachable (cfg : CBConfig) : CBState → Prop where
  | init : CBReachable cfg CBState.init
  | beginStep (now : Nat) (s : CBState) : CBReachable cfg s →
      CBReachable cfg (CircuitBreaker.callBegin cfg now s).1
  | endStep (success : Bool) (now : Nat) (s : CBState) : CBReachable cfg s →
      CBReachable cfg (CircuitBreaker.callEnd cfg success now s)
  | resetStep (s : CBState) : CBReachable cfg s →
      CBReachable cfg (CircuitBreaker.reset s)

/-- Admission never changes the failure counter. -/
theorem cb_callBegin_failures (cfg : CBConfig) (now : Nat) (s : CBState) :
    (CircuitBreaker.callBegin cfg now s).1.failures = s.failures := by
  unfold CircuitBreaker.callBegin CircuitBreaker.halfOpenGate
  split_ifs <;> rfl

/-- From `CLOSED`, admission is a no-op that lets the call through. -/
theorem cb_callBegin_closed (cfg : CBConfig) (now : Nat) (s : CBState)
    (hc : s.state = .CLOSED) : CircuitBreaker.callBegin cfg now s = (s, true) := by
  unfold CircuitBreaker.callBegin
  simp [hc]

/-- In every reachable non-`CLOSED` state the failure counter has already
met the threshold: failures only decrease in `CLOSED`, and both entries
into `OPEN` (threshold trip, probe-budget exhaustion) preserve it. -/
theorem cbReachable_failures_ge (cfg : CBConfig) (s : CBState)
    (h : CBReachable cfg s) (hs : s.state ≠ .CLOSED) :
    cfg.failureThreshold ≤ s.failures := by
  induction h with
  | init => simp [CBState.init] at hs
  | beginStep now s hr ih =>
      rw [cb_callBegin_failures]
      refine ih fun hc => hs ?_
      rw [cb_callBegin_closed cfg now s hc]
      exact hc
  | endStep success now s hr ih =>
      by_cases hsucc : success = true
      · by_cases hho : s.state = CircState.HALF_OPEN
        · simp [CircuitBreaker.callEnd, hsucc, hho] at hs
        · by_cases hcl : s.state = CircState.CLOSED
          · simp [CircuitBreaker.callEnd, hsucc, hho, hcl] at hs
          · simpa [CircuitBreaker.callEnd, hsucc, hho, hcl] using ih hcl
      · replace hsucc : success = false := by cases success <;> simp_all
        subst hsucc
        by_cases hth : cfg.failureThreshold ≤ s.failures + 1
        · simp [CircuitBreaker.callEnd, hth]
        · have h2 : s.state ≠ CircState.CLOSED := by
            simpa [CircuitBreaker.callEnd, hth] using hs
          have h3 := ih h2
          simp only [CircuitBreaker.callEnd, Bool.false_eq_true, if_false, hth]
          omega
  | resetStep s hr ih => simp [CircuitBreaker.reset, CBState.init] at hs

/-- C2 (amended): in a reachable `HALF_OPEN` state, a call is admitted
exactly while fewer than `maxHalfOpenProbes` probes have been counted and
is rejected (reopening the circuit) once the budget is reached; a
successful probe transitions immediately to `CLOSED` with the failure
counter reset to 0; a failed probe transitions immediately back to `OPEN`
but leaves the probe counter unchanged — the counter is instead reset to 0
on the transition into `HALF_OPEN`. -/
theorem C2_halfOpen_probing (cfg : CBConfig) (now : Nat) (s : CBState)
    (hr : CBReachable cfg s) (hs : s.state = .HALF_OPEN) :
    (s.halfOpenCalls < cfg.halfOpenMaxCalls →
      CircuitBreaker.callBegin cfg now s
        = ({ s with halfOpenCalls := s.halfOpenCalls + 1 }, true)) ∧
    (cfg.halfOpenMaxCalls ≤ s.halfOpenCalls →
      CircuitBreaker.callBegin cfg now s = ({ s with state := .OPEN }, false)) ∧
    CircuitBreaker.callEnd cfg true now s = { s with state := .CLOSED, failures := 0 } ∧
    (CircuitBreaker.callEnd cfg false now s).state = .OPEN ∧
    (CircuitBreaker.callEnd cfg false now s).halfOpenCalls = s.halfOpenCalls ∧
    (∀ t s2, s2.state = .OPEN → cfg.recoveryTimeout < t - s2.lastFailure →
      1 ≤ cfg.halfOpenMaxCalls →
      CircuitBreaker.callBegin cfg t s2
        = ({ s2 with state := .HALF_OPEN, halfOpenCalls := 1 }, true)) := by
  have hfail := cbReachable_failures_ge cfg s hr (by simp [hs])
  have hfail1 : cfg.failureThreshold ≤ s.failures + 1 := Nat.le_succ_of_le hfail
  refine ⟨?_, ?_, ?_, ?_, ?_, ?_⟩
  · intro hlt
    simp [CircuitBreaker.callBegin, CircuitBreaker.halfOpenGate, hs, Nat.not_le.mpr hlt]
  · intro hle
    simp [CircuitBreaker.callBegin, CircuitBreaker.halfOpenGate, hs, hle]
  · simp [CircuitBreaker.callEnd, hs]
  · simp [CircuitBreaker.callEnd, hfail1]
  · simp [CircuitBreaker.callEnd, hfail1]
  · intro t s2 h2 hrec hmax
    simp [CircuitBreaker.callBegin, CircuitBreaker.halfOpenGate, h2, hrec,
      Nat.not_le.mpr hmax]

/-- Witness for C2 at a concrete reachable half-open state (threshold 1,
recovery timeout 5, probe budget 2): a successful probe closes the
circuit and zeroes the failure counter. -/
theorem C2_halfOpen_probing_witness :
    CBReachable ⟨1, 5, 2⟩ ⟨1, 0, .HALF_OPEN, 1⟩ ∧
    CircuitBreaker.callEnd ⟨1, 5, 2⟩ true 7 ⟨1, 0, .HALF_OPEN, 1⟩
      = { CBState.mk 1 0 .HALF_OPEN 1 with state := .CLOSED, failures := 0 } := by
  have h0 : CBReachable ⟨1, 5, 2⟩ ⟨0, 0, .CLOSED, 0⟩ := CBReachable.init
  have h1 : CBReachable ⟨1, 5, 2⟩ ⟨1, 0, .OPEN, 0⟩ :=
    CBReachable.endStep false 0 ⟨0, 0, .CLOSED, 0⟩ h0
  have h2 : CBReachable ⟨1, 5, 2⟩ ⟨1, 0, .HALF_OPEN, 1⟩ :=
    CBReachable.beginStep 6 ⟨1, 0, .OPEN, 0⟩ h1
  exact ⟨h2, (C2_halfOpen_probing ⟨1, 5, 2⟩ 7 ⟨1, 0, .HALF_OPEN, 1⟩ h2 rfl).2.2.1⟩

/-- Counterexample to C2 as stated: from the reachable half-open state
below (one counted probe), a failed probe moves the breaker back to
`OPEN` but does not reset the probe counter — `half_open_calls` stays 1;
the counter is only zeroed on the next transition into `HALF_OPEN`. -/
theorem C2_probe_counter_counterexample :
    CBReachable ⟨1, 5, 2⟩ ⟨1, 0, .HALF_OPEN, 1⟩ ∧
    (CircuitBreaker.callEnd ⟨1, 5, 2⟩ false 6 ⟨1, 0, .HALF_OPEN, 1⟩).state = .OPEN ∧
    (CircuitBreaker.callEnd ⟨1, 5, 2⟩ false 6 ⟨1, 0, .HALF_OPEN, 1⟩).halfOpenCalls ≠ 0 := by
  have h0 : CBReachable ⟨1, 5, 2⟩ ⟨0, 0, .CLOSED, 0⟩ := CBReachable.init
  have h1 : CBReachable ⟨1, 5, 2⟩ ⟨1, 0, .OPEN, 0⟩ :=
    CBReachable.endStep false 0 ⟨0, 0, .CLOSED, 0⟩ h0
  have h2 : CBReachable ⟨1, 5, 2⟩ ⟨1, 0, .HALF_OPEN, 1⟩ :=
    CBReachable.beginStep 6 ⟨1, 0, .OPEN, 0⟩ h1
  exact ⟨h2, by decide, by decide⟩

/-- C3 (amended): while the breaker is `OPEN` and
`now - lastFailureAt ≤ recoveryTimeout`, every call is rejected
immediately, the state is unchanged and the wrapped function is never
invoked (invocation count 0); strictly after the timeout
(`now - lastFailureAt > recoveryTimeout`) the next call is admitted and
the state transitions to `HALF_OPEN` before the wrapped function
executes.  The boundary case `now - lastFailureAt = recoveryTimeout` does
not yet permit the transition. -/
theorem C3_open_rejection (cfg : CBConfig) (now : Nat) (outcome : Option Nat)
    (s : CBState) (hs : s.state = .OPEN) :
    (now - s.lastFailure ≤ cfg.recoveryTimeout →
      CircuitBreaker.call cfg now outcome s = (s, none, 0)) ∧
    (cfg.recoveryTimeout < now - s.lastFailure → 1 ≤ cfg.halfOpenMaxCalls →
      (CircuitBreaker.callBegin cfg now s).2 = true ∧
      (CircuitBreaker.callBegin cfg now s).1.state = .HALF_OPEN) := by
  constructor
  · intro hle
    simp [CircuitBreaker.call, CircuitBreaker.callBegin, hs, Nat.not_lt.mpr hle]
  · intro hlt hmax
    simp [CircuitBreaker.callBegin, CircuitBreaker.halfOpenGate, hs, hlt,
      Nat.not_le.mpr hmax]

/-- Witness for C3: with recovery timeout 60, a call 50 seconds after the
last failure is rejected with no invocation of the wrapped function. -/
theorem C3_open_rejection_witness :
    CircuitBreaker.call ⟨5, 60, 3⟩ 150 (some 7) ⟨5, 100, .OPEN, 0⟩
      = (⟨5, 100, .OPEN, 0⟩, none, 0) :=
  (C3_open_rejection ⟨5, 60, 3⟩ 150 (some 7) ⟨5, 100, .OPEN, 0⟩ rfl).1 (by decide)

/-- Counterexample to C3 as stated: at the exact boundary
`now - lastFailureAt = recoveryTimeout` (`60 - 0 = 60`) the code still
rejects the call without invoking the wrapped function and stays `OPEN`;
the source requires the strict inequality
`now - last_failure > recovery_timeout`. -/
theorem C3_boundary_counterexample :
    60 - (CBState.mk 5 0 .OPEN 0).lastFailure = (CBConfig.mk 5 60 3).recoveryTimeout ∧
    CircuitBreaker.call ⟨5, 60, 3⟩ 60 (some 7) ⟨5, 0, .OPEN, 0⟩
      = (⟨5, 0, .OPEN, 0⟩, none, 0) := by decide

/-- C6 (amended): no single wrapped-call step (admission or completion)
moves the breaker from `OPEN` directly to `CLOSED` — every call path from
`OPEN` to `CLOSED` passes through `HALF_OPEN`; the authorized reset
endpoint, however, forces `CLOSED` from any state, including directly
from `OPEN`. -/
theorem C6_no_open_to_closed_call_step (cfg : CBConfig) (now : Nat) (success : Bool)
    (s : CBState) (hs : s.state = .OPEN) :
    (CircuitBreaker.callBegin cfg now s).1.state ≠ .CLOSED ∧
    (CircuitBreaker.callEnd cfg success now s).state ≠ .CLOSED := by
  constructor
  · unfold CircuitBreaker.callBegin CircuitBreaker.halfOpenGate
    split_ifs <;> simp_all
  · unfold CircuitBreaker.callEnd
    split_ifs <;> simp_all

/-- Witness for C6 at a concrete open state. -/
theorem C6_no_open_to_closed_call_step_witness :
    (CircuitBreaker.callBegin ⟨5, 60, 3⟩ 10 ⟨5, 0, .OPEN, 0⟩).1.state ≠ .CLOSED ∧
    (CircuitBreaker.callEnd ⟨5, 60, 3⟩ true 10 ⟨5, 0, .OPEN, 0⟩).state ≠ .CLOSED :=
  C6_no_open_to_closed_call_step ⟨5, 60, 3⟩ 10 true ⟨5, 0, .OPEN, 0⟩ rfl

/-- Counterexample to C6 as stated: the reset endpoint, applied to a
reachable `OPEN` state, replaces it with a fresh `CLOSED` state in a
single step — a direct `OPEN → CLOSED` transition that never passes
through `HALF_OPEN`. -/
theorem C6_reset_counterexample :
    CBReachable ⟨1, 5, 2⟩ ⟨1, 0, .OPEN, 0⟩ ∧
    (CBState.mk 1 0 .OPEN 0).state = .OPEN ∧
    (CircuitBreaker.reset ⟨1, 0, .OPEN, 0⟩).state = .CLOSED ∧
    (CircuitBreaker.reset ⟨1, 0, .OPEN, 0⟩).state ≠ .HALF_OPEN := by
  have h0 : CBReachable ⟨1, 5, 2⟩ ⟨0, 0, .CLOSED, 0⟩ := CBReachable.init
  have h1 : CBReachable ⟨1, 5, 2⟩ ⟨1, 0, .OPEN, 0⟩ :=
    CBReachable.endStep false 0 ⟨0, 0, .CLOSED, 0⟩ h0
  exact ⟨h1, by decide, by decide, by decide⟩

/-! ## Association-list model of Python `dict`

The proxy's caches, dedup map and rate-limit windows are Python dicts.
They are embedded as association lists with unique keys; `alookup` is
`d.get(k)`, `aupdate` is `d[k] = v` and `aerase` is `del d[k]`. -/

/-- Dictionary read: first binding of the key, if any. -/
def alookup {α : Type} (k : String) : List (String × α) → Option α
  | [] => none
  | (k2, v) :: rest => if k2 = k then some v else alookup k rest

/-- Dictionary delete: drops the first binding of the key. -/
def aerase {α : Type} (k : String) : List (String × α) → List (String × α)
  | [] => []
  | (k2, v) :: rest => if k2 = k then rest else (k2, v) :: aerase k rest

/-- Dictionary write: replaces the first binding of the key, or appends a
new binding when the key is absent. -/
def aupdate {α : Type} (k : String) (v : α) : List (String × α) → List (String × α)
  | [] => [(k, v)]
  | (k2, v2) :: rest => if k2 = k then (k2, v) :: rest else (k2, v2) :: aupdate k v rest

/-- The key list of a dictionary. -/
def akeys {α : Type} (l : List (String × α)) : List String := l.map Prod.fst

theorem alookup_isSome_iff_mem {α : Type} (k : String) (l : List (String × α)) :
    (alookup k l).isSome ↔ k ∈ akeys l := by
  induction l with
  | nil => simp [alookup, akeys]
  | cons p rest ih =>
      obtain ⟨k2, v⟩ := p
      by_cases h : k2 = k
      · subst h
        simp [alookup, akeys]
      · have hk : k ≠ k2 := fun hh => h hh.symm
        simp only [alookup, if_neg h]
        rw [ih]
        simp [akeys, hk]

theorem akeys_aerase {α : Type} (k : String) (l : List (String × α)) :
    akeys (aerase k l) = (akeys l).erase k := by
  induction l with
  | nil => simp [aerase, akeys]
  | cons p rest ih =>
      obtain ⟨k2, v⟩ := p
      by_cases h : k2 = k
      · simp [aerase, akeys, h, List.erase_cons_head]
      · have hb : (k2 == k) = false := by simpa using h
        simp [aerase, akeys, h, List.erase_cons, hb]
        simpa [akeys] using ih

theorem alookup_aerase_ne {α : Type} (k k2 : String) (l : List (String × α))
    (h : k2 ≠ k) : alookup k2 (aerase k l) = alookup k2 l := by
  induction l with
  | nil => simp [aerase]
  | cons p rest ih =>
      obtain ⟨k3, v⟩ := p
      by_cases h3 : k3 = k
      · subst h3
        have h5 : k3 ≠ k2 := fun hh => h hh.symm
        simp [aerase, alookup, h5]
      · by_cases h4 : k3 = k2
        · subst h4
          simp [aerase, alookup, h3]
        · simp [aerase, alookup, h3, h4, ih]

theorem alookup_aerase_self {α : Type} (k : String) (l : List (String × α))
    (hnd : (akeys l).Nodup) : alookup k (aerase k l) = none := by
  induction l with
  | nil => simp [aerase, alookup]
  | cons p rest ih =>
      obtain ⟨k2, v⟩ := p
      simp only [akeys, List.map_cons, List.nodup_cons] at hnd
      by_cases h : k2 = k
      · subst h
        simp only [aerase, if_pos rfl]
        rw [← Option.not_isSome_iff_eq_none, alookup_isSome_iff_mem]
        exact hnd.1
      · simp [aerase, alookup, h]
        exact ih hnd.2

theorem aerase_length {α : Type} (k : String) (l : List (String × α))
    (h : (alookup k l).isSome) : (aerase k l).length + 1 = l.length := by
  induction l with
  | nil => simp [alookup] at h
  | cons p rest ih =>
      obtain ⟨k2, v⟩ := p
      by_cases h2 : k2 = k
      · simp [aerase, h2]
      · simp only [alookup, h2, if_neg h2] at h
        simp [aerase, h2, ih h]

theorem akeys_aupdate_present {α : Type} (k : String) (v : α) (l : List (String × α))
    (h : (alookup k l).isSome) : akeys (aupdate k v l) = akeys l := by
  induction l with
  | nil => simp [alookup] at h
  | cons p rest ih =>
      obtain ⟨k2, v2⟩ := p
      by_cases h2 : k2 = k
      · simp [aupdate, akeys, h2]
      · simp only [alookup, if_neg h2] at h
        have h3 := ih h
        simp only [akeys] at h3 ⊢
        simp [aupdate, h2, h3]

theorem akeys_aupdate_absent {α : Type} (k : String) (v : α) (l : List (String × α))
    (h : ¬(alookup k l).isSome) : akeys (aupdate k v l) = akeys l ++ [k] := by
  induction l with
  | nil => simp [aupdate, akeys]
  | cons p rest ih =>
      obtain ⟨k2, v2⟩ := p
      by_cases h2 : k2 = k
      · simp [alookup, h2] at h
      · simp only [alookup, if_neg h2] at h
        have h3 := ih h
        simp only [akeys] at h3 ⊢
        simp [aupdate, h2, h3]

theorem aupdate_length_present {α : Type} (k : String) (v : α) (l : List (String × α))
    (h : (alookup k l).isSome) : (aupdate k v l).length = l.length := by
  have := akeys_aupdate_present k v l h
  have h1 : (akeys (aupdate k v l)).length = (akeys l).length := by rw [this]
  simpa [akeys] using h1

theorem aupdate_length_absent {α : Type} (k : String) (v : α) (l : List (String × α))
    (h : ¬(alookup k l).isSome) : (aupdate k v l).length = l.length + 1 := by
  have := akeys_aupdate_absent k v l h
  have h1 : (akeys (aupdate k v l)).length = (akeys l ++ [k]).length := by rw [this]
  simpa [akeys] using h1

/-! ## LRU memory cache (`EnhancedMemoryCache`, lines 146–212) -/

/-- The `CacheEntry` dataclass: `data`, `timestamp`, `access_count`,
`last_access`.  Payloads are opaque `Nat` values. -/
structure CacheEntry where
  data : Nat
  timestamp : Nat
  accessCount : Nat
  lastAccess : Nat
  deriving DecidableEq, Repr

/-- `EnhancedMemoryCache`: `max_size`, `ttl`, the `cache` dict and the
`access_order` deque. -/
structure MemCache where
  maxSize : Nat
  ttl : Nat
  cache : List (String × CacheEntry)
  accessOrder : List String
  deriving DecidableEq, Repr

/-- The constructor: empty dict, empty deque. -/
def MemCache.init (maxSize ttl : Nat) : MemCache := ⟨maxSize, ttl, [], []⟩

/-- `EnhancedMemoryCache.get` (lines 157–184): a missing key is a miss; an
entry with `now - timestamp > ttl` is deleted from both the dict and the
deque and reported as a miss; otherwise the access counters are bumped and
the key moves to the most-recently-used end of `access_order`. -/
def MemCache.get (c : MemCache) (key : String) (now : Nat) : Option Nat × MemCache :=
  match alookup key c.cache with
  | none => (none, c)
  | some e =>
    if c.ttl < now - e.timestamp then
      (none, { c with cache := aerase key c.cache,
                      accessOrder := c.accessOrder.erase key })
    else
      (some e.data,
        { c with
          cache := aupdate key
            { e with accessCount := e.accessCount + 1, lastAccess := now } c.cache,
          accessOrder := c.accessOrder.erase key ++ [key] })

/-- The `while len(self.cache) >= self.max_size` eviction loop inside
`EnhancedMemoryCache.set` (lines 195–201): pop the least-recently-used
key off `access_order` and delete it from the dict, stopping early when
the deque runs empty. -/
def MemCache.evictLoop (maxSize : Nat) :
    List (String × CacheEntry) → List String → List (String × CacheEntry) × List String
  | cache, [] => (cache, [])
  | cache, oldest :: rest =>
    if cache.length < maxSize then (cache, oldest :: rest)
    else if (alookup oldest cache).isSome then
      MemCache.evictLoop maxSize (aerase oldest cache) rest
    else
      MemCache.evictLoop maxSize cache rest

/-- `EnhancedMemoryCache.set` (lines 186–204): an existing key has its
data and timestamp overwritten in place (`access_order` untouched); a new
key first runs the eviction loop, then is inserted with a fresh
`CacheEntry` and appended to `access_order`. -/
def MemCache.set (c : MemCache) (key : String) (data : Nat) (now : Nat) : MemCache :=
  match alookup key c.cache with
  | some e =>
      { c with cache := aupdate key { e with data := data, timestamp := now } c.cache }
  | none =>
      let p := MemCache.evictLoop c.maxSize c.cache c.accessOrder
      { c with cache := aupdate key ⟨data, now, 0, now⟩ p.1,
               accessOrder := p.2 ++ [key] }

/-- `EnhancedMemoryCache.clear` (lines 206–209). -/
def MemCache.clear (c : MemCache) : MemCache :=
  { c with cache := [], accessOrder := [] }

/-- `EnhancedMemoryCache.size` (lines 211–212). -/
def MemCache.size (c : MemCache) : Nat := c.cache.length

/-- One client-visible cache operation. -/
inductive CacheOp where
  | get (key : String) (now : Nat)
  | set (key : String) (data : Nat) (now : Nat)
  | clear
  deriving Repr

/-- Run a sequence of cache operations. -/
def MemCache.run (c : MemCache) : List CacheOp → MemCache
  | [] => c
  | .get k t :: rest => ((c.get k t).2).run rest
  | .set k d t :: rest => (c.set k d t).run rest
  | .clear :: rest => c.clear.run rest

/-- C7: with memory-cache capacity 2 and no TTL expiry (all operations at
time 0), inserting distinct keys `a`, `b`, then `c` evicts `a` (leaving
`b` and `c` present); but if `a` is read — a `get` hit returning its
data — between inserting `b` and `c`, then inserting `c` evicts `b`
instead (leaving `a` and `c`): the hit moves `a` to the most-recently-used
position and `set` at capacity evicts the least-recently-accessed key
first. -/
theorem C7_lru_eviction (ttl : Nat) (a b c : String) (da db dc : Nat)
    (hab : a ≠ b) (hac : a ≠ c) (hbc : b ≠ c) :
    (alookup a ((((MemCache.init 2 ttl).set a da 0).set b db 0).set c dc 0).cache = none ∧
     alookup b ((((MemCache.init 2 ttl).set a da 0).set b db 0).set c dc 0).cache ≠ none ∧
     alookup c ((((MemCache.init 2 ttl).set a da 0).set b db 0).set c dc 0).cache ≠ none) ∧
    ((((MemCache.init 2 ttl).set a da 0).set b db 0).get a 0).1 = some da ∧
    (alookup b (((((MemCache.init 2 ttl).set a da 0).set b db 0).get a 0).2.set c dc 0).cache
        = none ∧
     alookup a (((((MemCache.init 2 ttl).set a da 0).set b db 0).get a 0).2.set c dc 0).cache
        ≠ none ∧
     alookup c (((((MemCache.init 2 ttl).set a da 0).set b db 0).get a 0).2.set c dc 0).cache
        ≠ none) := by
  have hba : b ≠ a := hab.symm
  have hca : c ≠ a := hac.symm
  have hcb : c ≠ b := hbc.symm
  simp [MemCache.init, MemCache.set, MemCache.get, MemCache.evictLoop,
    alookup, aupdate, aerase, hab, hac, hbc, hba, hca, hcb]

/-- Witness for C7 at concrete keys and payloads. -/
theorem C7_lru_eviction_witness :
    alookup "A" ((((MemCache.init 2 60).set "A" 1 0).set "B" 2 0).set "C" 3 0).cache
      = none ∧
    alookup "B" (((((MemCache.init 2 60).set "A" 1 0).set "B" 2 0).get "A" 0).2.set
      "C" 3 0).cache = none :=
  ⟨(C7_lru_eviction 60 "A" "B" "C" 1 2 3 (by decide) (by decide) (by decide)).1.1,
   (C7_lru_eviction 60 "A" "B" "C" 1 2 3 (by decide) (by decide) (by decide)).2.2.1⟩

/-- Well-formedness the source maintains between the cache dict and the
`access_order` deque: dict keys are unique and every cached key occurs in
the deque. -/
def MemCache.WF (c : MemCache) : Prop :=
  (akeys c.cache).Nodup ∧ ∀ k, k ∈ akeys c.cache → k ∈ c.accessOrder

/-- The eviction loop keeps keys unique, only keeps keys that survive in
the remaining deque, never invents entries, and — because every cached key
is in the deque — always drives the dict strictly below `max_size`. -/
theorem evictLoop_spec (maxSize : Nat) (hmax : 1 ≤ maxSize) :
    ∀ (order : List String) (cache : List (String × CacheEntry)),
      (akeys cache).Nodup → (∀ k, k ∈ akeys cache → k ∈ order) →
      (akeys (MemCache.evictLoop maxSize cache order).1).Nodup ∧
      (∀ k, k ∈ akeys (MemCache.evictLoop maxSize cache order).1 →
        k ∈ (MemCache.evictLoop maxSize cache order).2) ∧
      (∀ k, k ∈ akeys (MemCache.evictLoop maxSize cache order).1 → k ∈ akeys cache) ∧
      (MemCache.evictLoop maxSize cache order).1.length < maxSize := by
  intro order
  induction order with
  | nil =>
      intro cache hnd hmem
      have hempty : cache = [] := by
        cases cache with
        | nil => rfl
        | cons p rest =>
            exact absurd (hmem p.1 (by simp [akeys])) (List.not_mem_nil p.1)
      subst hempty
      simp [MemCache.evictLoop, akeys]
      omega
  | cons oldest rest ih =>
      intro cache hnd hmem
      by_cases hlen : cache.length < maxSize
      · simp only [MemCache.evictLoop, if_pos hlen]
        exact ⟨hnd, hmem, fun k hk => hk, hlen⟩
      · by_cases hin : (alookup oldest cache).isSome
        · have hrec := ih (aerase oldest cache)
            (by rw [akeys_aerase]; exact hnd.erase oldest)
            (by
              intro k hk
              rw [akeys_aerase] at hk
              have hne : k ≠ oldest := (List.Nodup.mem_erase_iff hnd).mp hk |>.1
              have hmem2 : k ∈ akeys cache := (List.Nodup.mem_erase_iff hnd).mp hk |>.2
              have h3 := hmem k hmem2
              simp only [List.mem_cons] at h3
              exact h3.resolve_left hne)
          simp only [MemCache.evictLoop, if_neg hlen, if_pos hin]
          refine ⟨hrec.1, hrec.2.1, ?_, hrec.2.2.2⟩
          intro k hk
          have h4 := hrec.2.2.1 k hk
          rw [akeys_aerase] at h4
          exact List.mem_of_mem_erase h4
        · have hrec := ih cache hnd
            (by
              intro k hk
              have h3 := hmem k hk
              simp only [List.mem_cons] at h3
              refine h3.resolve_left ?_
              intro heq
              subst heq
              exact hin ((alookup_isSome_iff_mem k cache).mpr hk))
          simp only [MemCache.evictLoop, if_neg hlen, if_neg hin]
          exact hrec

/-- A `get` preserves well-formedness, never grows the cache, and leaves
the configured capacity alone. -/
theorem memCache_get_wf (c : MemCache) (key : String) (now : Nat) (hwf : MemCache.WF c) :
    MemCache.WF (c.get key now).2 ∧ (c.get key now).2.size ≤ c.size ∧
    (c.get key now).2.maxSize = c.maxSize := by
  obtain ⟨hnd, hmem⟩ := hwf
  unfold MemCache.get
  cases hl : alookup key c.cache with
  | none => exact ⟨⟨hnd, hmem⟩, le_refl _, rfl⟩
  | some e =>
      by_cases hexp : c.ttl < now - e.timestamp
      · simp only [if_pos hexp]
        refine ⟨⟨?_, ?_⟩, ?_, by trivial⟩
        · rw [akeys_aerase]
          exact hnd.erase key
        · intro k hk
          rw [akeys_aerase] at hk
          have h1 := (List.Nodup.mem_erase_iff hnd).mp hk
          exact (List.mem_erase_of_ne h1.1).mpr (hmem k h1.2)
        · show (aerase key c.cache).length ≤ c.cache.length
          have := aerase_length key c.cache (by simp [hl])
          omega
      · simp only [if_neg hexp]
        have hksome : (alookup key c.cache).isSome := by simp [hl]
        refine ⟨⟨?_, ?_⟩, ?_, by trivial⟩
        · rw [akeys_aupdate_present _ _ _ hksome]
          exact hnd
        · intro k hk
          rw [akeys_aupdate_present _ _ _ hksome] at hk
          by_cases hkk : k = key
          · subst hkk
            simp
          · have h2 := hmem k hk
            simp only [List.mem_append]
            exact Or.inl ((List.mem_erase_of_ne hkk).mpr h2)
        · show (aupdate key _ c.cache).length ≤ c.cache.length
          rw [aupdate_length_present _ _ _ hksome]

/-- A `set` preserves well-formedness and the capacity bound. -/
theorem memCache_set_wf (c : MemCache) (key : String) (data now : Nat)
    (hwf : MemCache.WF c) (hmax : 1 ≤ c.maxSize) (hsize : c.size ≤ c.maxSize) :
    MemCache.WF (c.set key data now) ∧ (c.set key data now).size ≤ c.maxSize ∧
    (c.set key data now).maxSize = c.maxSize := by
  obtain ⟨hnd, hmem⟩ := hwf
  unfold MemCache.set
  cases hl : alookup key c.cache with
  | some e =>
      have hksome : (alookup key c.cache).isSome := by simp [hl]
      refine ⟨⟨?_, ?_⟩, ?_, by trivial⟩
      · rw [akeys_aupdate_present _ _ _ hksome]; exact hnd
      · intro k hk
        rw [akeys_aupdate_present _ _ _ hksome] at hk
        exact hmem k hk
      · show (aupdate key _ c.cache).length ≤ c.maxSize
        rw [aupdate_length_present _ _ _ hksome]
        exact hsize
  | none =>
      have hspec := evictLoop_spec c.maxSize hmax c.accessOrder c.cache hnd hmem
      obtain ⟨hnd2, hmem2, hsub, hlen⟩ := hspec
      have habs :
          ¬(alookup key (MemCache.evictLoop c.maxSize c.cache c.accessOrder).1).isSome := by
        intro hsome
        have hk := (alookup_isSome_iff_mem _ _).mp hsome
        have h2 := hsub key hk
        rw [← alookup_isSome_iff_mem] at h2
        simp [hl] at h2
      refine ⟨⟨?_, ?_⟩, ?_, by trivial⟩
      · rw [akeys_aupdate_absent _ _ _ habs]
        refine List.Nodup.append hnd2 (List.nodup_singleton key) ?_
        intro k hk1 hk2
        simp only [List.mem_singleton] at hk2
        subst hk2
        exact habs ((alookup_isSome_iff_mem _ _).mpr hk1)
      · intro k hk
        rw [akeys_aupdate_absent _ _ _ habs] at hk
        simp only [List.mem_append, List.mem_singleton] at hk ⊢
        cases hk with
        | inl h => exact Or.inl (hmem2 k h)
        | inr h => exact Or.inr (by simp [h])
      · show (aupdate key _ _).length ≤ c.maxSize
        rw [aupdate_length_absent _ _ _ habs]
        omega

/-- Any operation sequence from a well-formed, within-capacity cache stays
well-formed and within capacity. -/
theorem memCache_run_wf (ops : List CacheOp) :
    ∀ (c : MemCache), MemCache.WF c → 1 ≤ c.maxSize → c.size ≤ c.maxSize →
      MemCache.WF (c.run ops) ∧ (c.run ops).maxSize = c.maxSize ∧
      (c.run ops).size ≤ c.maxSize := by
  induction ops with
  | nil =>
      intro c hwf hmax hsize
      exact ⟨hwf, rfl, hsize⟩
  | cons op rest ih =>
      intro c hwf hmax hsize
      cases op with
      | get k t =>
          obtain ⟨hwf2, hle, hmaxeq⟩ := memCache_get_wf c k t hwf
          have h := ih (c.get k t).2 hwf2 (by rw [hmaxeq]; exact hmax)
            (by rw [hmaxeq]; exact le_trans hle hsize)
          simpa [MemCache.run, hmaxeq] using h
      | set k d t =>
          obtain ⟨hwf2, hsize2, hmaxeq⟩ := memCache_set_wf c k d t hwf hmax hsize
          have h := ih (c.set k d t) hwf2 (by rw [hmaxeq]; exact hmax)
            (by rw [hmaxeq]; exact hsize2)
          simpa [MemCache.run, hmaxeq] using h
      | clear =>
          have hwf2 : MemCache.WF c.clear :=
            ⟨by simp [MemCache.clear, akeys], by simp [MemCache.clear, akeys]⟩
          have h := ih c.clear hwf2 hmax (by simp [MemCache.clear, MemCache.size])
          simpa [MemCache.run] using h

/-- C9: for every configured capacity of at least 1 and every sequence of
`get`, `set` and `clear` operations, the number of entries in the memory
cache never exceeds the capacity. -/
theorem C9_capacity_bound (maxSize ttl : Nat) (hmax : 1 ≤ maxSize) (ops : List CacheOp) :
    ((MemCache.init maxSize ttl).run ops).size ≤ maxSize := by
  have h := memCache_run_wf ops (MemCache.init maxSize ttl)
    ⟨by simp [MemCache.init, akeys], by simp [MemCache.init, akeys]⟩ hmax
    (by simp [MemCache.init, MemCache.size])
  exact h.2.2

/-- Witness for C9: capacity 2, three inserts. -/
theorem C9_capacity_bound_witness :
    (1 : Nat) ≤ 2 ∧
    ((MemCache.init 2 60).run
      [CacheOp.set "A" 1 0, CacheOp.set "B" 2 0, CacheOp.set "C" 3 0]).size ≤ 2 :=
  ⟨by decide, C9_capacity_bound 2 60 (by decide)
    [CacheOp.set "A" 1 0, CacheOp.set "B" 2 0, CacheOp.set "C" 3 0]⟩

/-! ## Rate limiter (`RateLimiter`, lines 140–143 and 264–290) -/

theorem alookup_aupdate_self {α : Type} (k : String) (v : α) (l : List (String × α)) :
    alookup k (aupdate k v l) = some v := by
  induction l with
  | nil => simp [aupdate, alookup]
  | cons p rest ih =>
      obtain ⟨k2, v2⟩ := p
      by_cases h : k2 = k <;> simp [aupdate, alookup, h, ih]

theorem alookup_aupdate_ne {α : Type} (k k2 : String) (v : α) (l : List (String × α))
    (h : k ≠ k2) : alookup k2 (aupdate k v l) = alookup k2 l := by
  induction l with
  | nil => simp [aupdate, alookup, h]
  | cons p rest ih =>
      obtain ⟨k3, v3⟩ := p
      by_cases h3 : k3 = k
      · subst h3
        simp [aupdate, alookup, h]
      · by_cases h4 : k3 = k2
        · subst h4
          simp [aupdate, alookup, h3]
        · simp [aupdate, alookup, h3, h4, ih]

/-- The `RateLimitWindow` dataclass: the `requests` deque of timestamps
and the `tokens` burst counter. -/
structure RateLimitWindow where
  requests : List Nat
  tokens : Nat
  deriving DecidableEq, Repr

/-- `RATE_LIMIT_REQUESTS`, `RATE_LIMIT_WINDOW`, `RATE_LIMIT_BURST`. -/
structure RLConfig where
  maxRequests : Nat
  window : Nat
  burst : Nat
  deriving DecidableEq, Repr

/-- Reading the `windows` defaultdict: a missing client id denotes a fresh
`RateLimitWindow(requests=deque(), tokens=RATE_LIMIT_BURST)`. -/
def RateLimiter.windowOf (cfg : RLConfig) (ws : List (String × RateLimitWindow))
    (clientId : String) : RateLimitWindow :=
  (alookup clientId ws).getD ⟨[], cfg.burst⟩

/-- `RateLimiter.is_allowed` (lines 273–290): pop timestamps with
`now - t > RATE_LIMIT_WINDOW` off the front of the client's deque, reject
when the remaining count is at or above `RATE_LIMIT_REQUESTS`, otherwise
append `now` and allow.  Returns the decision and the updated windows
dict (the purge mutates the stored deque even on rejection). -/
def RateLimiter.isAllowed (cfg : RLConfig) (clientId : String) (now : Nat)
    (ws : List (String × RateLimitWindow)) : Bool × List (String × RateLimitWindow) :=
  let w := RateLimiter.windowOf cfg ws clientId
  let purged := w.requests.dropWhile (fun t => cfg.window < now - t)
  if cfg.maxRequests ≤ purged.length then
    (false, aupdate clientId { w with requests := purged } ws)
  else
    (true, aupdate clientId { w with requests := purged ++ [now] } ws)

/-- Run a sequence of `(clientId, time)` admission checks, collecting the
decisions. -/
def RateLimiter.runSeq (cfg : RLConfig) :
    List (String × Nat) → List (String × RateLimitWindow) →
    List Bool × List (String × RateLimitWindow)
  | [], ws => ([], ws)
  | (cid, t) :: rest, ws =>
      let p := RateLimiter.isAllowed cfg cid t ws
      let q := RateLimiter.runSeq cfg rest p.2
      (p.1 :: q.1, q.2)

/-- Timestamps equal to `now` are never purged (`now - now = 0`). -/
theorem rl_dropWhile_replicate (cfg : RLConfig) (now k : Nat) :
    (List.replicate k now).dropWhile (fun t => decide (cfg.window < now - t))
      = List.replicate k now := by
  cases k with
  | zero => simp
  | succ m => simp [List.replicate_succ, List.dropWhile_cons]

/-- From a state where the client's deque holds `k` copies of `now` with
`k + n = maxRequests`, the next `n` same-instant checks allow and the one
after is rejected. -/
theorem rl_runSeq_exact (cfg : RLConfig) (a : String) (now : Nat) :
    ∀ (n k : Nat) (ws : List (String × RateLimitWindow)),
      (RateLimiter.windowOf cfg ws a).requests = List.replicate k now →
      k + n = cfg.maxRequests →
      (RateLimiter.runSeq cfg (List.replicate (n + 1) (a, now)) ws).1
        = List.replicate n true ++ [false] := by
  intro n
  induction n with
  | zero =>
      intro k ws hw hk
      have hlen : cfg.maxRequests ≤ k := by omega
      simp [RateLimiter.runSeq, RateLimiter.isAllowed, hw, rl_dropWhile_replicate, hlen]
  | succ m ih =>
      intro k ws hw hk
      have hlen : ¬cfg.maxRequests ≤ k := by omega
      have hstep : RateLimiter.isAllowed cfg a now ws
          = (true, aupdate a { RateLimiter.windowOf cfg ws a with
              requests := List.replicate k now ++ [now] } ws) := by
        simp [RateLimiter.isAllowed, hw, rl_dropWhile_replicate, hlen]
      have hnext : (RateLimiter.windowOf cfg (RateLimiter.isAllowed cfg a now ws).2 a).requests
          = List.replicate (k + 1) now := by
        rw [hstep]
        simp [RateLimiter.windowOf, alookup_aupdate_self, List.replicate_succ']
      have hrun := ih (k + 1) (RateLimiter.isAllowed cfg a now ws).2 hnext (by omega)
      calc (RateLimiter.runSeq cfg (List.replicate (m + 1 + 1) (a, now)) ws).1
          = (RateLimiter.isAllowed cfg a now ws).1
              :: (RateLimiter.runSeq cfg (List.replicate (m + 1) (a, now))
                   (RateLimiter.isAllowed cfg a now ws).2).1 := by
            simp [List.replicate_succ, RateLimiter.runSeq]
        _ = List.replicate (m + 1) true ++ [false] := by
            rw [hrun, hstep]
            simp [List.replicate_succ]

/-- The admission decision for a client depends only on that client's
stored window. -/
theorem rl_isAllowed_fst (cfg : RLConfig) (cid : String) (now : Nat)
    (ws1 ws2 : List (String × RateLimitWindow))
    (h : RateLimiter.windowOf cfg ws1 cid = RateLimiter.windowOf cfg ws2 cid) :
    (RateLimiter.isAllowed cfg cid now ws1).1 = (RateLimiter.isAllowed cfg cid now ws2).1 := by
  unfold RateLimiter.isAllowed
  rw [h]
  by_cases hc : cfg.maxRequests ≤ ((RateLimiter.windowOf cfg ws2 cid).requests.dropWhile
      (fun t => cfg.window < now - t)).length
  · simp [hc]
  · simp [hc]

/-- C8: each `is_allowed` check first purges timestamps older than
`windowSeconds`, then rejects exactly when the remaining count is at least
`maxRequests`, otherwise records the new timestamp and allows; starting
from an empty limiter, exactly `maxRequests` same-window calls for a
client succeed and the next is rejected; and a check made under any other
client id leaves this client's window and subsequent decision unchanged. -/
theorem C8_sliding_window (cfg : RLConfig) (ws : List (String × RateLimitWindow))
    (a b : String) (now t2 : Nat) (hba : b ≠ a) :
    ((RateLimiter.isAllowed cfg a now ws).1 = false ↔
      cfg.maxRequests ≤ ((RateLimiter.windowOf cfg ws a).requests.dropWhile
        (fun t => cfg.window < now - t)).length) ∧
    (RateLimiter.windowOf cfg (RateLimiter.isAllowed cfg a now ws).2 a).requests
      = ((RateLimiter.windowOf cfg ws a).requests.dropWhile (fun t => cfg.window < now - t))
        ++ (if (RateLimiter.isAllowed cfg a now ws).1 then [now] else []) ∧
    ((RateLimiter.runSeq cfg (List.replicate (cfg.maxRequests + 1) (a, now)) []).1
      = List.replicate cfg.maxRequests true ++ [false]) ∧
    (RateLimiter.windowOf cfg (RateLimiter.isAllowed cfg b t2 ws).2 a
      = RateLimiter.windowOf cfg ws a) ∧
    ((RateLimiter.isAllowed cfg a now (RateLimiter.isAllowed cfg b t2 ws).2).1
      = (RateLimiter.isAllowed cfg a now ws).1) := by
  have hwin : RateLimiter.windowOf cfg (RateLimiter.isAllowed cfg b t2 ws).2 a
      = RateLimiter.windowOf cfg ws a := by
    unfold RateLimiter.isAllowed
    by_cases h : cfg.maxRequests ≤ ((RateLimiter.windowOf cfg ws b).requests.dropWhile
        (fun t => cfg.window < t2 - t)).length
    · simp only [if_pos h]
      unfold RateLimiter.windowOf
      rw [alookup_aupdate_ne b a _ ws hba]
    · simp only [if_neg h]
      unfold RateLimiter.windowOf
      rw [alookup_aupdate_ne b a _ ws hba]
  refine ⟨?_, ?_, ?_, hwin, ?_⟩
  · unfold RateLimiter.isAllowed
    by_cases h : cfg.maxRequests ≤ ((RateLimiter.windowOf cfg ws a).requests.dropWhile
        (fun t => cfg.window < now - t)).length
    · simp [h]
    · simp [h]
  · unfold RateLimiter.isAllowed
    by_cases h : cfg.maxRequests ≤ ((RateLimiter.windowOf cfg ws a).requests.dropWhile
        (fun t => cfg.window < now - t)).length
    · simp only [if_pos h]
      unfold RateLimiter.windowOf
      rw [alookup_aupdate_self]
      simp
    · simp only [if_neg h]
      unfold RateLimiter.windowOf
      rw [alookup_aupdate_self]
      simp
  · exact rl_runSeq_exact cfg a now cfg.maxRequests 0 []
      (by simp [RateLimiter.windowOf, alookup]) (by omega)
  · exact rl_isAllowed_fst cfg a now _ ws hwin

/-- Witness for C8: limit 2 per window, three same-instant calls by client
`x`. -/
theorem C8_sliding_window_witness :
    ("y" : String) ≠ "x" ∧
    (RateLimiter.runSeq ⟨2, 60, 10⟩ (List.replicate (2 + 1) ("x", 5)) []).1
      = List.replicate 2 true ++ [false] :=
  ⟨by decide, (C8_sliding_window ⟨2, 60, 10⟩ [] "x" "y" 5 6 (by decide)).2.2.1⟩

/-- The per-client state with the burst `tokens` field erased; two
limiter states with equal erasures are indistinguishable to
`is_allowed`. -/
def rlErase (ws : List (String × RateLimitWindow)) : List (String × List Nat) :=
  ws.map (fun p => (p.1, p.2.requests))

theorem alookup_rlErase (ws1 ws2 : List (String × RateLimitWindow))
    (h : rlErase ws1 = rlErase ws2) (k : String) :
    (alookup k ws1).map RateLimitWindow.requests
      = (alookup k ws2).map RateLimitWindow.requests := by
  induction ws1 generalizing ws2 with
  | nil =>
      cases ws2 with
      | nil => rfl
      | cons q t => simp [rlErase] at h
  | cons p t ih =>
      cases ws2 with
      | nil => simp [rlErase] at h
      | cons q t2 =>
          obtain ⟨k1, v1⟩ := p
          obtain ⟨k2, v2⟩ := q
          simp only [rlErase, List.map_cons, List.cons.injEq, Prod.mk.injEq] at h
          obtain ⟨⟨hk, hr⟩, ht⟩ := h
          subst hk
          by_cases hik : k1 = k
          · simp [alookup, hik, hr]
          · simp only [alookup, if_neg hik]
            exact ih t2 ht

theorem aupdate_rlErase (ws1 ws2 : List (String × RateLimitWindow))
    (h : rlErase ws1 = rlErase ws2) (k : String) (v1 v2 : RateLimitWindow)
    (hv : v1.requests = v2.requests) :
    rlErase (aupdate k v1 ws1) = rlErase (aupdate k v2 ws2) := by
  induction ws1 generalizing ws2 with
  | nil =>
      cases ws2 with
      | nil => simp [rlErase, aupdate, hv]
      | cons q t => simp [rlErase] at h
  | cons p t ih =>
      cases ws2 with
      | nil => simp [rlErase] at h
      | cons q t2 =>
          obtain ⟨k1, w1⟩ := p
          obtain ⟨k2, w2⟩ := q
          simp only [rlErase, List.map_cons, List.cons.injEq, Prod.mk.injEq] at h
          obtain ⟨⟨hk, hr⟩, ht⟩ := h
          subst hk
          by_cases hik : k1 = k
          · simp [aupdate, hik, rlErase, hv, hr]
            exact ht
          · simp only [aupdate, if_neg hik, rlErase, List.map_cons, List.cons.injEq,
              Prod.mk.injEq]
            exact ⟨⟨by trivial, hr⟩, ih t2 ht⟩

/-- Admission decisions are invariant under the burst configuration and
the stored `tokens` values: `is_allowed` neither reads nor writes them. -/
theorem rl_runSeq_tokens_irrelevant (maxReq window b1 b2 : Nat) :
    ∀ (calls : List (String × Nat)) (ws1 ws2 : List (String × RateLimitWindow)),
      rlErase ws1 = rlErase ws2 →
      (RateLimiter.runSeq ⟨maxReq, window, b1⟩ calls ws1).1
        = (RateLimiter.runSeq ⟨maxReq, window, b2⟩ calls ws2).1 := by
  intro calls
  induction calls with
  | nil => intro ws1 ws2 h; rfl
  | cons c rest ih =>
      intro ws1 ws2 h
      obtain ⟨cid, t⟩ := c
      have hreq : (RateLimiter.windowOf ⟨maxReq, window, b1⟩ ws1 cid).requests
          = (RateLimiter.windowOf ⟨maxReq, window, b2⟩ ws2 cid).requests := by
        have hl := alookup_rlErase ws1 ws2 h cid
        unfold RateLimiter.windowOf
        cases h1 : alookup cid ws1 with
        | none =>
            cases h2 : alookup cid ws2 with
            | none => simp
            | some w => simp [h1, h2] at hl
        | some w =>
            cases h2 : alookup cid ws2 with
            | none => simp [h1, h2] at hl
            | some w2 =>
                simp only [h1, h2, Option.map_some] at hl
                simpa using hl
      unfold RateLimiter.runSeq
      by_cases hc : maxReq ≤ ((RateLimiter.windowOf ⟨maxReq, window, b1⟩ ws1 cid).requests.dropWhile
          (fun s => window < t - s)).length
      · have hc2 : maxReq ≤ ((RateLimiter.windowOf ⟨maxReq, window, b2⟩ ws2 cid).requests.dropWhile
            (fun s => window < t - s)).length := by rw [← hreq]; exact hc
        simp only [RateLimiter.isAllowed, hc, hc2, if_pos]
        refine congrArg₂ _ rfl ?_
        apply ih
        apply aupdate_rlErase ws1 ws2 h cid _ _ ?_
        simp [hreq]
      · have hc2 : ¬maxReq ≤ ((RateLimiter.windowOf ⟨maxReq, window, b2⟩ ws2 cid).requests.dropWhile
            (fun s => window < t - s)).length := by rw [← hreq]; exact hc
        simp only [RateLimiter.isAllowed, hc, hc2, if_neg, if_pos]
        refine congrArg₂ _ rfl ?_
        apply ih
        apply aupdate_rlErase ws1 ws2 h cid _ _ ?_
        simp [hreq]

/-- C10: the burst-token allowance has no effect on admission — the
`tokens` field is initialized from the burst configuration but never read
or decremented by `is_allowed` (second conjunct), so two limiter runs
differing only in the configured burst size produce identical allow/reject
decision sequences (first conjunct). -/
theorem C10_burst_irrelevant (maxReq window b1 b2 : Nat) (calls : List (String × Nat)) :
    ((RateLimiter.runSeq ⟨maxReq, window, b1⟩ calls []).1
      = (RateLimiter.runSeq ⟨maxReq, window, b2⟩ calls []).1) ∧
    (∀ (cfg : RLConfig) (cid : String) (now : Nat)
        (ws : List (String × RateLimitWindow)),
      (RateLimiter.windowOf cfg (RateLimiter.isAllowed cfg cid now ws).2 cid).tokens
        = (RateLimiter.windowOf cfg ws cid).tokens) := by
  constructor
  · exact rl_runSeq_tokens_irrelevant maxReq window b1 b2 calls [] [] rfl
  · intro cfg cid now ws
    unfold RateLimiter.isAllowed
    by_cases h : cfg.maxRequests ≤ ((RateLimiter.windowOf cfg ws cid).requests.dropWhile
        (fun t => cfg.window < now - t)).length
    · simp only [if_pos h]
      unfold RateLimiter.windowOf
      rw [alookup_aupdate_self]
      simp
    · simp only [if_neg h]
      unfold RateLimiter.windowOf
      rw [alookup_aupdate_self]
      simp

/-! ## Upstream client (`_upstream_request`, lines 381–416) -/

/-- Outcome of one HTTP attempt: a response with a status code and body,
a `requests.exceptions.Timeout`, or another `RequestException`
(connection failure). -/
inductive HttpOutcome where
  | status (code : Nat) (body : Nat)
  | timeout
  | connFailure
  deriving DecidableEq, Repr

/-- The backoff delay slept before retry attempt `attempt ≥ 1` (line 388):
`RETRY_BACKOFF_FACTOR * (2 ** (attempt - 1))`. -/
def retryDelay (backoff : ℚ) (attempt : Nat) : ℚ := backoff * 2 ^ (attempt - 1)

/-- The `for attempt in range(MAX_RETRIES + 1)` loop of
`_upstream_request`, with `fuel` the remaining iterations and `attempt`
the current index.  Given each attempt's outcome, returns the final result
(`some body` for a 200; `none` when the loop exhausts and `last_exception`
is re-raised), the list of backoff delays slept, and the number of
attempts performed.  A 200 returns immediately; statuses 429, 503, 502
and 504 store the exception and `continue`; any other status raises via
`response.raise_for_status()` — but that `requests.exceptions.HTTPError`
is caught by the loop's own `except requests.exceptions.RequestException`
handler (line 412), so a non-retryable status is retried exactly like a
timeout or connection failure.  Timeouts and connection failures store
the exception and proceed to the next iteration. -/
def upstreamLoop (backoff : ℚ) (outcomes : Nat → HttpOutcome) :
    Nat → Nat → Option Nat × List ℚ × Nat
  | 0, _ => (none, [], 0)
  | fuel + 1, attempt =>
      let pre : List ℚ := if attempt = 0 then [] else [retryDelay backoff attempt]
      match outcomes attempt with
      | .status code body =>
          if code = 200 then (some body, pre, 1)
          else if code = 429 ∨ code = 503 ∨ code = 502 ∨ code = 504 then
            let r := upstreamLoop backoff outcomes fuel (attempt + 1)
            (r.1, pre ++ r.2.1, r.2.2 + 1)
          else
            let r := upstreamLoop backoff outcomes fuel (attempt + 1)
            (r.1, pre ++ r.2.1, r.2.2 + 1)
      | .timeout =>
          let r := upstreamLoop backoff outcomes fuel (attempt + 1)
          (r.1, pre ++ r.2.1, r.2.2 + 1)
      | .connFailure =>
          let r := upstreamLoop backoff outcomes fuel (attempt + 1)
          (r.1, pre ++ r.2.1, r.2.2 + 1)

/-- `_upstream_request` as a function of the per-attempt outcomes. -/
def upstreamRequest (maxRetries : Nat) (backoff : ℚ) (outcomes : Nat → HttpOutcome) :
    Option Nat × List ℚ × Nat :=
  upstreamLoop backoff outcomes (maxRetries + 1) 0

/-- C1, code evaluated at the failing input: with `MAX_RETRIES = 3` and
backoff factor `1/2`, an upstream answering HTTP 404 on every attempt is
retried like a retryable failure — 4 attempts with backoff sleeps
`1/2, 1, 2` before the retries — instead of returning immediately after
one attempt as the claim (and the source's own `Non-retriable error`
comment before `response.raise_for_status()`) prescribes.  For
comparison: a 200 does return immediately after 1 attempt with no
sleeps, and a retryable 503 is retried with exactly the same schedule as
the 404. -/
theorem C1_nonretryable_status_retried :
    upstreamRequest 3 (1/2) (fun _ => .status 404 0) = (none, [1/2, 1, 2], 4) ∧
    (4 : Nat) ≠ 1 ∧
    upstreamRequest 3 (1/2) (fun _ => .status 200 42) = (some 42, [], 1) ∧
    upstreamRequest 3 (1/2) (fun _ => .status 503 0) = (none, [1/2, 1, 2], 4) := by
  refine ⟨?_, by decide, ?_, ?_⟩ <;>
    norm_num [upstreamRequest, upstreamLoop, retryDelay]


/-! ## Request deduplication (`_cached_get`, lines 419–475), interleaved -/

/-- The single cache key all C4 scenarios contend on. -/
def dedupKey : String := "k"

/-- Global state of the `_cached_get` system for one key: the memory
cache, the file-cache entry for the key, whether the `request_deduplication`
dict holds an entry (`Event`) for the key, the number of invocations of
the upstream fetch, the queued upstream outcomes (consumed in invocation
order; `none` = exception), and the shared circuit breaker. -/
structure DedupSys where
  mem : MemCache
  file : Option Nat
  pending : Bool
  fnCalls : Nat
  outcomes : List (Option Nat)
  cb : CBState
  deriving DecidableEq, Repr

/-- Program counter of one request thread inside `_cached_get`:
`start` = about to check the caches; `waiting` = blocked on the dedup
event (a scheduled `waiting` thread models `Event.wait` returning, by the
event being set or by `REQUEST_TIMEOUT` expiring); `running` = owns a
dedup entry and is about to perform the circuit-breaker-wrapped fetch;
`done r` = returned (`some v`) or raised (`none`). -/
inductive DedupPhase where
  | start
  | waiting
  | running
  | done (result : Option Nat)
  deriving DecidableEq, Repr

/-- One atomic step of one thread inside `_cached_get` (lines 419–475),
at a fixed instant 0: from `start`, a memory hit returns, a file hit
promotes and returns, otherwise the thread waits if a dedup entry exists
and becomes the fetching leader (creating the entry) if not; from
`waiting` (the wait returned), the caches are re-checked and on a double
miss the thread overwrites the dedup entry and fetches itself (the code
does not re-check the dict after waking); from `running`, the wrapped
fetch runs through the circuit breaker, a success populates both cache
tiers, and the `finally` block removes the dedup entry and signals the
event in every case. -/
def dedupStep (cfg : CBConfig) (sys : DedupSys) (ph : DedupPhase) : DedupSys × DedupPhase :=
  match ph with
  | .start =>
      let g := sys.mem.get dedupKey 0
      match g.1 with
      | some d => ({ sys with mem := g.2 }, .done (some d))
      | none =>
        match sys.file with
        | some d => ({ sys with mem := g.2.set dedupKey d 0 }, .done (some d))
        | none =>
          if sys.pending then ({ sys with mem := g.2 }, .waiting)
          else ({ sys with mem := g.2, pending := true }, .running)
  | .waiting =>
      let g := sys.mem.get dedupKey 0
      match g.1 with
      | some d => ({ sys with mem := g.2 }, .done (some d))
      | none =>
        match sys.file with
        | some d => ({ sys with mem := g.2.set dedupKey d 0 }, .done (some d))
        | none => ({ sys with mem := g.2, pending := true }, .running)
  | .running =>
      let p := CircuitBreaker.callBegin cfg 0 sys.cb
      if p.2 then
        match sys.outcomes.headD none with
        | some d =>
            ({ sys with
                mem := sys.mem.set dedupKey d 0
                file := some d
                cb := CircuitBreaker.callEnd cfg true 0 p.1
                pending := false
                fnCalls := sys.fnCalls + 1
                outcomes := sys.outcomes.tail },
              .done (some d))
        | none =>
            ({ sys with
                cb := CircuitBreaker.callEnd cfg false 0 p.1
                pending := false
                fnCalls := sys.fnCalls + 1
                outcomes := sys.outcomes.tail },
              .done none)
      else
        ({ sys with cb := p.1, pending := false }, .done none)
  | .done r => (sys, .done r)

/-- Structural positional lookup in the thread list. -/
def phaseAt : List DedupPhase → Nat → Option DedupPhase
  | [], _ => none
  | p :: _, 0 => some p
  | _ :: rest, n + 1 => phaseAt rest n

/-- Structural positional update of the thread list. -/
def setPhase : List DedupPhase → Nat → DedupPhase → List DedupPhase
  | [], _, _ => []
  | _ :: rest, 0, b => b :: rest
  | p :: rest, n + 1, b => p :: setPhase rest n b

/-- Run the interleaved system under an explicit schedule of thread
indices (each entry lets that thread take one step). -/
def dedupRun (cfg : CBConfig) :
    List Nat → DedupSys × List DedupPhase → DedupSys × List DedupPhase
  | [], st => st
  | i :: rest, (sys, threads) =>
      match phaseAt threads i with
      | none => dedupRun cfg rest (sys, threads)
      | some ph =>
          let r := dedupStep cfg sys ph
          dedupRun cfg rest (r.1, setPhase threads i r.2)

/-- The index sequence `s, s+1, …, s+n-1`. -/
def idxSeq : Nat → Nat → List Nat
  | _, 0 => []
  | s, n + 1 => s :: idxSeq (s + 1) n

theorem phaseAt_append_length (l1 : List DedupPhase) (a : DedupPhase) (l2 : List DedupPhase) :
    phaseAt (l1 ++ a :: l2) l1.length = some a := by
  induction l1 with
  | nil => rfl
  | cons x rest ih => simpa [phaseAt] using ih

theorem setPhase_append_length (l1 : List DedupPhase) (a b : DedupPhase) (l2 : List DedupPhase) :
    setPhase (l1 ++ a :: l2) l1.length b = l1 ++ b :: l2 := by
  induction l1 with
  | nil => rfl
  | cons x rest ih => simp [setPhase, ih]

theorem replicate_append_cons {α : Type} (j : Nat) (a : α) (l : List α) :
    List.replicate j a ++ a :: l = List.replicate (j + 1) a ++ l := by
  induction j with
  | zero => rfl
  | succ n ih => simp [List.replicate_succ, ih]

/-- Schedules compose. -/
theorem dedupRun_append (cfg : CBConfig) (s1 s2 : List Nat) :
    ∀ st, dedupRun cfg (s1 ++ s2) st = dedupRun cfg s2 (dedupRun cfg s1 st) := by
  induction s1 with
  | nil => intro st; rfl
  | cons i rest ih =>
      intro st
      obtain ⟨sys, threads⟩ := st
      cases h : phaseAt threads i <;> simp [dedupRun, h, ih]

/-- A hit at time 0 survives the LRU bookkeeping of the hit itself. -/
theorem memCache_get_hit_stable (m : MemCache) (key : String) (d : Nat)
    (h : (m.get key 0).1 = some d) :
    ((m.get key 0).2.get key 0).1 = some d := by
  cases hl : alookup key m.cache with
  | none => simp [MemCache.get, hl] at h
  | some e =>
      have hexp : ¬m.ttl < 0 - e.timestamp := by simp
      have hdata : e.data = d := by
        simpa [MemCache.get, hl, hexp] using h
      have hget : (m.get key 0).2 = { m with
          cache := aupdate key
            { e with accessCount := e.accessCount + 1, lastAccess := 0 } m.cache
          accessOrder := m.accessOrder.erase key ++ [key] } := by
        simp [MemCache.get, hl, hexp]
      rw [hget]
      simp [MemCache.get, alookup_aupdate_self, hexp, hdata]

/-- A starting thread that misses both tiers while a dedup entry is
pending becomes a waiter and changes nothing. -/
theorem dedupStep_start_wait (cfg : CBConfig) (sys : DedupSys)
    (hmem : alookup dedupKey sys.mem.cache = none) (hfile : sys.file = none)
    (hpend : sys.pending = true) :
    dedupStep cfg sys .start = (sys, .waiting) := by
  obtain ⟨mem, file, pend, fn, outs, cb⟩ := sys
  simp only at hmem hfile hpend
  subst hfile hpend
  simp [dedupStep, MemCache.get, hmem]

/-- A waiter that wakes to a fresh memory entry returns its data. -/
theorem dedupStep_wait_done (cfg : CBConfig) (sys : DedupSys) (d : Nat)
    (h : (sys.mem.get dedupKey 0).1 = some d) :
    dedupStep cfg sys .waiting
      = ({ sys with mem := (sys.mem.get dedupKey 0).2 }, .done (some d)) := by
  unfold dedupStep
  simp [h]

/-- While the leader's dedup entry is pending and both tiers miss, any
number of newly arriving threads all become waiters, leaving the shared
state untouched. -/
theorem dedup_reg_loop (cfg : CBConfig) (sys : DedupSys)
    (hmem : alookup dedupKey sys.mem.cache = none) (hfile : sys.file = none)
    (hpend : sys.pending = true) :
    ∀ (m j : Nat),
      dedupRun cfg (idxSeq (j + 1) m)
        (sys, .running :: (List.replicate j .waiting ++ List.replicate m .start))
      = (sys, .running :: List.replicate (j + m) .waiting) := by
  intro m
  induction m with
  | zero =>
      intro j
      simp [idxSeq, dedupRun]
  | succ mm ih =>
      intro j
      have hget : phaseAt (DedupPhase.running ::
          (List.replicate j DedupPhase.waiting
            ++ List.replicate (mm + 1) DedupPhase.start)) (j + 1)
          = some DedupPhase.start := by
        have h1 := phaseAt_append_length (List.replicate j DedupPhase.waiting)
          DedupPhase.start (List.replicate mm DedupPhase.start)
        simp only [List.length_replicate] at h1
        simpa [phaseAt, List.replicate_succ] using h1
      have hset : setPhase (DedupPhase.running ::
          (List.replicate j DedupPhase.waiting
            ++ List.replicate (mm + 1) DedupPhase.start)) (j + 1) DedupPhase.waiting
          = DedupPhase.running :: (List.replicate (j + 1) DedupPhase.waiting
              ++ List.replicate mm DedupPhase.start) := by
        have h1 := setPhase_append_length (List.replicate j DedupPhase.waiting)
          DedupPhase.start DedupPhase.waiting (List.replicate mm DedupPhase.start)
        simp only [List.length_replicate] at h1
        calc setPhase (DedupPhase.running :: (List.replicate j DedupPhase.waiting
                ++ List.replicate (mm + 1) DedupPhase.start)) (j + 1) DedupPhase.waiting
            = DedupPhase.running :: setPhase (List.replicate j DedupPhase.waiting
                ++ List.replicate (mm + 1) DedupPhase.start) j DedupPhase.waiting := by
              simp [setPhase]
          _ = DedupPhase.running :: (List.replicate j DedupPhase.waiting
                ++ DedupPhase.waiting :: List.replicate mm DedupPhase.start) := by
              rw [List.replicate_succ, h1]
          _ = DedupPhase.running :: (List.replicate (j + 1) DedupPhase.waiting
                ++ List.replicate mm DedupPhase.start) := by
              rw [replicate_append_cons]
      show dedupRun cfg ((j + 1) :: idxSeq (j + 2) mm)
          (sys, DedupPhase.running :: (List.replicate j DedupPhase.waiting
            ++ List.replicate (mm + 1) DedupPhase.start)) = _
      rw [dedupRun]
      simp only [hget, dedupStep_start_wait cfg sys hmem hfile hpend, hset]
      have h2 := ih (j + 1)
      rw [show j + (mm + 1) = j + 1 + mm by omega]
      exact h2



/-- After the leader completed successfully, any number of waiters wake
one by one, each hitting the memory cache and finishing with the leader's
result; no further fetch happens. -/
theorem dedup_wake_loop (cfg : CBConfig) (d : Nat) :
    ∀ (m j : Nat) (sys : DedupSys),
      (sys.mem.get dedupKey 0).1 = some d →
      ∃ sys2 : DedupSys,
        dedupRun cfg (idxSeq (j + 1) m)
          (sys, .done (some d) :: (List.replicate j (.done (some d))
            ++ List.replicate m .waiting))
        = (sys2, .done (some d) :: List.replicate (j + m) (.done (some d))) ∧
        sys2.fnCalls = sys.fnCalls := by
  intro m
  induction m with
  | zero =>
      intro j sys hmem
      exact ⟨sys, by simp [idxSeq, dedupRun], rfl⟩
  | succ mm ih =>
      intro j sys hmem
      have hget : phaseAt (DedupPhase.done (some d) ::
          (List.replicate j (DedupPhase.done (some d))
            ++ List.replicate (mm + 1) DedupPhase.waiting)) (j + 1)
          = some DedupPhase.waiting := by
        have h1 := phaseAt_append_length (List.replicate j (DedupPhase.done (some d)))
          DedupPhase.waiting (List.replicate mm DedupPhase.waiting)
        simp only [List.length_replicate] at h1
        simpa [phaseAt, List.replicate_succ] using h1
      have hset : setPhase (DedupPhase.done (some d) ::
          (List.replicate j (DedupPhase.done (some d))
            ++ List.replicate (mm + 1) DedupPhase.waiting)) (j + 1)
              (DedupPhase.done (some d))
          = DedupPhase.done (some d) :: (List.replicate (j + 1) (DedupPhase.done (some d))
              ++ List.replicate mm DedupPhase.waiting) := by
        have h1 := setPhase_append_length (List.replicate j (DedupPhase.done (some d)))
          DedupPhase.waiting (DedupPhase.done (some d)) (List.replicate mm DedupPhase.waiting)
        simp only [List.length_replicate] at h1
        calc setPhase (DedupPhase.done (some d) :: (List.replicate j (DedupPhase.done (some d))
                ++ List.replicate (mm + 1) DedupPhase.waiting)) (j + 1)
                  (DedupPhase.done (some d))
            = DedupPhase.done (some d) :: setPhase (List.replicate j (DedupPhase.done (some d))
                ++ List.replicate (mm + 1) DedupPhase.waiting) j (DedupPhase.done (some d)) := by
              simp [setPhase]
          _ = DedupPhase.done (some d) :: (List.replicate j (DedupPhase.done (some d))
                ++ DedupPhase.done (some d) :: List.replicate mm DedupPhase.waiting) := by
              rw [List.replicate_succ, h1]
          _ = DedupPhase.done (some d) :: (List.replicate (j + 1) (DedupPhase.done (some d))
                ++ List.replicate mm DedupPhase.waiting) := by
              rw [replicate_append_cons]
      obtain ⟨sys2, heq, hfn⟩ := ih (j + 1) { sys with mem := (sys.mem.get dedupKey 0).2 }
        (memCache_get_hit_stable sys.mem dedupKey d hmem)
      refine ⟨sys2, ?_, by simpa using hfn⟩
      show dedupRun cfg ((j + 1) :: idxSeq (j + 2) mm)
          (sys, DedupPhase.done (some d) :: (List.replicate j (DedupPhase.done (some d))
            ++ List.replicate (mm + 1) DedupPhase.waiting)) = _
      rw [dedupRun]
      simp only [hget, dedupStep_wait_done cfg sys d hmem, hset]
      rw [show j + (mm + 1) = j + 1 + mm by omega]
      exact heq

/-- C4 (amended): for any number `n` of concurrent cache-missing
requests for the same key arriving while the first caller's fetch is in
flight, if the first caller's upstream fetch succeeds with data `d` and
each waiter's wait completes after it, exactly one upstream call is made
and every caller finishes with the same result `d`.  (When the fetch
fails, a woken waiter re-fetches — see the counterexample.) -/
theorem C4_dedup_leader_success (cfg : CBConfig) (n d : Nat) :
    (dedupRun cfg (0 :: (idxSeq 1 n ++ 0 :: idxSeq 1 n))
      (⟨MemCache.init 100 60, none, false, 0, [some d], CBState.init⟩,
        .start :: List.replicate n .start)).1.fnCalls = 1 ∧
    (dedupRun cfg (0 :: (idxSeq 1 n ++ 0 :: idxSeq 1 n))
      (⟨MemCache.init 100 60, none, false, 0, [some d], CBState.init⟩,
        .start :: List.replicate n .start)).2
      = .done (some d) :: List.replicate n (.done (some d)) := by
  have hstep1 : dedupRun cfg (0 :: (idxSeq 1 n ++ 0 :: idxSeq 1 n))
      (⟨MemCache.init 100 60, none, false, 0, [some d], CBState.init⟩,
        .start :: List.replicate n .start)
      = dedupRun cfg (idxSeq 1 n ++ 0 :: idxSeq 1 n)
        (⟨MemCache.init 100 60, none, true, 0, [some d], CBState.init⟩,
          .running :: List.replicate n .start) := rfl
  have hreg := dedup_reg_loop cfg
    ⟨MemCache.init 100 60, none, true, 0, [some d], CBState.init⟩ rfl rfl rfl n 0
  simp only [Nat.zero_add, List.replicate, List.nil_append] at hreg
  have hstep2 : dedupRun cfg (0 :: idxSeq 1 n)
      (⟨MemCache.init 100 60, none, true, 0, [some d], CBState.init⟩,
        DedupPhase.running :: List.replicate n DedupPhase.waiting)
      = dedupRun cfg (idxSeq 1 n)
        (⟨⟨100, 60, [(dedupKey, ⟨d, 0, 0, 0⟩)], [dedupKey]⟩, some d, false, 1, [],
            ⟨0, 0, .CLOSED, 0⟩⟩,
          DedupPhase.done (some d) :: List.replicate n DedupPhase.waiting) := rfl
  have hmem2 : ((⟨⟨100, 60, [(dedupKey, ⟨d, 0, 0, 0⟩)], [dedupKey]⟩, some d, false, 1, [],
      ⟨0, 0, .CLOSED, 0⟩⟩ : DedupSys).mem.get dedupKey 0).1 = some d := by
    simp [MemCache.get, alookup]
  obtain ⟨sysF, heqF, hfnF⟩ := dedup_wake_loop cfg d n 0
    ⟨⟨100, 60, [(dedupKey, ⟨d, 0, 0, 0⟩)], [dedupKey]⟩, some d, false, 1, [],
      ⟨0, 0, .CLOSED, 0⟩⟩ hmem2
  simp only [Nat.zero_add, List.replicate, List.nil_append] at heqF
  rw [hstep1, dedupRun_append, hreg, hstep2, heqF]
  simp [hfnF]



/-- Counterexample to C4 as stated: two concurrent cache-missing
requests; the first becomes the fetching leader and its upstream call
fails; the waiter wakes, misses both tiers again, and performs its own
upstream call — two invocations of the fetch function instead of the
claimed at-most-one, and the waiter's error is its own second fetch's,
not a propagated copy of the leader's. -/
theorem C4_failure_refetch_counterexample :
    (dedupRun ⟨100, 60, 3⟩ [0, 1, 0, 1, 1]
      (⟨MemCache.init 100 60, none, false, 0, [none, none], CBState.init⟩,
        [DedupPhase.start, DedupPhase.start])).1.fnCalls = 2 ∧
    (dedupRun ⟨100, 60, 3⟩ [0, 1, 0, 1, 1]
      (⟨MemCache.init 100 60, none, false, 0, [none, none], CBState.init⟩,
        [DedupPhase.start, DedupPhase.start])).2
      = [DedupPhase.done none, DedupPhase.done none] := by decide



/-! ## The request pipeline (`_track_request` lines 488–535, `weather` lines 597–634) -/

/-- Configuration of the weather endpoint pipeline: `PROXY_TOKEN`,
`OPENWEATHER_API_KEY`, the rate-limiter and circuit-breaker settings. -/
structure WeatherCfg where
  proxyToken : String
  apiKey : String
  rl : RLConfig
  cb : CBConfig
  deriving DecidableEq, Repr

/-- The mutable server state the `/api/weather` pipeline touches: the
rate-limiter windows, the memory cache, the file cache (data and mtime per
key), the circuit breaker, and the error tracker's entries
(`(type, endpoint)` pairs, newest last). -/
structure ServerState where
  rl : List (String × RateLimitWindow)
  mem : MemCache
  file : List (String × Nat × Nat)
  cb : CBState
  errors : List (String × String)
  deriving DecidableEq, Repr

/-- `_require_token` (lines 478–485): no check when `PROXY_TOKEN` is
unset; otherwise a missing, empty or mismatched token aborts with 401. -/
def requireToken (proxyToken : String) (reqToken : Option String) : Bool :=
  if proxyToken = "" then true
  else match reqToken with
    | none => false
    | some t => if t = "" then false else t = proxyToken

/-- `_file_cache_get` (lines 351–365): a file older than `CACHE_TTL`
reads as a miss. -/
def fileCacheGet (cacheTtl : Nat) (key : String) (now : Nat)
    (file : List (String × Nat × Nat)) : Option Nat :=
  match alookup key file with
  | none => none
  | some (d, mtime) => if cacheTtl < now - mtime then none else some d

/-- `_cached_get` (lines 419–475) for a single in-flight request (empty
dedup dict: the entry this request creates is removed again in the
`finally` block): memory tier, then file tier with promotion, then the
circuit-breaker-wrapped upstream fetch whose success populates both
tiers; a breaker rejection or upstream failure propagates as an
exception (`none`). -/
def cachedGetSeq (cbCfg : CBConfig) (cacheTtl : Nat) (key : String) (now : Nat)
    (outcome : Option Nat) (mem : MemCache) (file : List (String × Nat × Nat))
    (cb : CBState) : Option Nat × MemCache × List (String × Nat × Nat) × CBState :=
  let g := mem.get key now
  match g.1 with
  | some d => (some d, g.2, file, cb)
  | none =>
    match fileCacheGet cacheTtl key now file with
    | some d => (some d, g.2.set key d now, file, cb)
    | none =>
      let r := CircuitBreaker.call cbCfg now outcome cb
      match r.2.1 with
      | some (some d) => (some d, g.2.set key d now, aupdate key (d, now) file, r.1)
      | some none => (none, g.2, file, r.1)
      | none => (none, g.2, file, r.1)

/-- The `weather()` view function (lines 597–634): token check, API-key
check, lat/lon validation, then `_cached_get`; an upstream exception
records an `upstream_error` and aborts 502.  The cache key (the SHA-256
of the normalized query) is passed in as an opaque string, and
coordinates are modelled as integers. -/
def weatherCore (cfg : WeatherCfg) (cacheTtl : Nat) (reqToken : Option String)
    (latlon : Option (Int × Int)) (key : String) (now : Nat) (outcome : Option Nat)
    (s : ServerState) : Nat × Option Nat × ServerState :=
  if requireToken cfg.proxyToken reqToken then
    if cfg.apiKey = "" then (500, none, s)
    else match latlon with
      | none => (400, none, s)
      | some (lat, lon) =>
        if -90 ≤ lat ∧ lat ≤ 90 ∧ -180 ≤ lon ∧ lon ≤ 180 then
          let r := cachedGetSeq cfg.cb cacheTtl key now outcome s.mem s.file s.cb
          match r.1 with
          | some d => (200, some d, { s with mem := r.2.1, file := r.2.2.1, cb := r.2.2.2 })
          | none =>
              (502, none,
                { s with
                    mem := r.2.1
                    file := r.2.2.1
                    cb := r.2.2.2
                    errors := s.errors ++ [("upstream_error", "/api/weather")] })
        else (400, none, s)
  else (401, none, s)

/-- The `_track_request` wrapper (lines 488–535) around `weather()`:
the rate limiter runs first — before the wrapped function and hence
before authentication; a rejection aborts 429 before the `try` block (so
no error-tracker entry), while any `HTTPException` raised inside the
wrapped function is recorded as an `http_error` and re-raised. -/
def trackedWeather (cfg : WeatherCfg) (cacheTtl : Nat) (clientId : String)
    (reqToken : Option String) (latlon : Option (Int × Int)) (key : String)
    (now : Nat) (outcome : Option Nat) (s : ServerState) :
    Nat × Option Nat × ServerState :=
  let p := RateLimiter.isAllowed cfg.rl clientId now s.rl
  if p.1 then
    let s1 := { s with rl := p.2 }
    let r := weatherCore cfg cacheTtl reqToken latlon key now outcome s1
    if r.1 = 200 then r
    else
      (r.1, r.2.1,
        { r.2.2 with errors := r.2.2.errors ++ [("http_error", "/api/weather")] })
  else
    (429, none, { s with rl := p.2 })

/-- C5 (amended): authentication is resolved only after the rate
limiter: a request with a missing or mismatched token (when a token is
configured) that passes the rate limiter is answered 401 and leaves both
cache layers and the circuit-breaker state unchanged with exactly one
error-tracker entry — but it does consume a slot in the client's
rate-limit window (the purged window plus the new timestamp); a request
the rate limiter rejects is answered 429 before authentication, with no
error-tracker entry. -/
theorem C5_auth_after_rate_limit (cfg : WeatherCfg) (cacheTtl : Nat) (clientId : String)
    (reqToken : Option String) (latlon : Option (Int × Int)) (key : String)
    (now : Nat) (outcome : Option Nat) (s : ServerState)
    (hauth : requireToken cfg.proxyToken reqToken = false)
    (hallowed : (RateLimiter.isAllowed cfg.rl clientId now s.rl).1 = true) :
    trackedWeather cfg cacheTtl clientId reqToken latlon key now outcome s
      = (401, none,
          { s with
              rl := (RateLimiter.isAllowed cfg.rl clientId now s.rl).2
              errors := s.errors ++ [("http_error", "/api/weather")] }) ∧
    (trackedWeather cfg cacheTtl clientId reqToken latlon key now outcome s).2.2.mem
      = s.mem ∧
    (trackedWeather cfg cacheTtl clientId reqToken latlon key now outcome s).2.2.file
      = s.file ∧
    (trackedWeather cfg cacheTtl clientId reqToken latlon key now outcome s).2.2.cb
      = s.cb ∧
    (RateLimiter.windowOf cfg.rl
        (trackedWeather cfg cacheTtl clientId reqToken latlon key now outcome s).2.2.rl
        clientId).requests
      = ((RateLimiter.windowOf cfg.rl s.rl clientId).requests.dropWhile
          (fun t => cfg.rl.window < now - t)) ++ [now] ∧
    (∀ s2 : ServerState, (RateLimiter.isAllowed cfg.rl clientId now s2.rl).1 = false →
      trackedWeather cfg cacheTtl clientId reqToken latlon key now outcome s2
        = (429, none,
            { s2 with rl := (RateLimiter.isAllowed cfg.rl clientId now s2.rl).2 })) := by
  have hmain : trackedWeather cfg cacheTtl clientId reqToken latlon key now outcome s
      = (401, none,
          { s with
              rl := (RateLimiter.isAllowed cfg.rl clientId now s.rl).2
              errors := s.errors ++ [("http_error", "/api/weather")] }) := by
    unfold trackedWeather weatherCore
    simp [hallowed, hauth]
  have hwin : (RateLimiter.isAllowed cfg.rl clientId now s.rl).2
      = aupdate clientId
          { RateLimiter.windowOf cfg.rl s.rl clientId with
              requests := ((RateLimiter.windowOf cfg.rl s.rl clientId).requests.dropWhile
                (fun t => cfg.rl.window < now - t)) ++ [now] } s.rl := by
    unfold RateLimiter.isAllowed at hallowed ⊢
    by_cases h : cfg.rl.maxRequests ≤ ((RateLimiter.windowOf cfg.rl s.rl clientId).requests.dropWhile
        (fun t => cfg.rl.window < now - t)).length
    · simp [h] at hallowed
    · simp [h]
  refine ⟨hmain, by rw [hmain], by rw [hmain], by rw [hmain], ?_, ?_⟩
  · rw [hmain]
    show (RateLimiter.windowOf cfg.rl (RateLimiter.isAllowed cfg.rl clientId now s.rl).2
        clientId).requests = _
    rw [hwin]
    unfold RateLimiter.windowOf
    rw [alookup_aupdate_self]
    simp
  · intro s2 hden
    unfold trackedWeather
    simp [hden]



/-- Witness for C5 at a concrete configured token and empty state. -/
theorem C5_auth_after_rate_limit_witness :
    requireToken "secret" none = false ∧
    (RateLimiter.isAllowed ⟨60, 60, 10⟩ "c" 5 []).1 = true ∧
    trackedWeather ⟨"secret", "ak", ⟨60, 60, 10⟩, ⟨5, 60, 3⟩⟩ 300 "c" none (some (52, 4))
      "key" 5 (some 7) ⟨[], MemCache.init 100 60, [], CBState.init, []⟩
      = (401, none,
          { (⟨[], MemCache.init 100 60, [], CBState.init, []⟩ : ServerState) with
              rl := (RateLimiter.isAllowed ⟨60, 60, 10⟩ "c" 5 []).2
              errors := [("http_error", "/api/weather")] }) :=
  ⟨by decide, by decide,
    (C5_auth_after_rate_limit ⟨"secret", "ak", ⟨60, 60, 10⟩, ⟨5, 60, 3⟩⟩ 300 "c" none (some (52, 4)) "key" 5
      (some 7) ⟨[], MemCache.init 100 60, [], CBState.init, []⟩ (by decide) (by decide)).1⟩

/-- Counterexample to C5 as stated: a tokenless request against a
configured token is answered 401, yet the client's rate-limit window
changed from `[]` to `[5]` — the rate limiter is consulted (and consumes
a slot) before authentication is resolved. -/
theorem C5_rate_limit_consumed_counterexample :
    (trackedWeather ⟨"secret", "ak", ⟨60, 60, 10⟩, ⟨5, 60, 3⟩⟩ 300 "c" none (some (52, 4))
      "key" 5 (some 7) ⟨[], MemCache.init 100 60, [], CBState.init, []⟩).1 = 401 ∧
    (RateLimiter.windowOf ⟨60, 60, 10⟩
        (trackedWeather ⟨"secret", "ak", ⟨60, 60, 10⟩, ⟨5, 60, 3⟩⟩ 300 "c" none
          (some (52, 4)) "key" 5 (some 7)
          ⟨[], MemCache.init 100 60, [], CBState.init, []⟩).2.2.rl "c").requests = [5] ∧
    (RateLimiter.windowOf ⟨60, 60, 10⟩ ([] : List (String × RateLimitWindow)) "c").requests
      = [] := by decide


end WeatherPi
